import Mathlib

/-
Verification of the ThreadPoolTaskScheduler core (src/ThreadPool.h).

The C++ class `ThreadPool` is embedded as a pure state machine:

* The task queue `std::queue<std::function<void()>>` becomes a `List PTask`
  whose head is the front of the queue.
* A queued function object is a `PTask`: the identity of the
  `std::packaged_task` shared state it is bound to (`tid`) together with the
  outcome its body produces when invoked (`body : Except String Nat` —
  a thrown exception message or a returned value; the C++ code is generic in
  the value type, which the embedding fixes to `Nat` without loss for the
  properties below).
* Each `std::future` shared state becomes an entry `(tid, o)` in `futures`,
  where `o = none` while the packaged task has not yet been invoked and
  `o = some outcome` once it has (a `std::packaged_task` stores the value or
  the caught exception of its wrapped callable into the shared state).
* `bool stop` becomes `stop : Bool`; the set of not-yet-terminated worker
  threads is abstracted by its cardinality `runningWorkers`.
* Fresh `packaged_task` shared states are identified by the counter `nextId`.
-/

deriving instance DecidableEq for Except

/-- One enqueued function object: the identity of the packaged-task shared
state it writes to, and the outcome its body produces when run. -/
structure PTask where
  tid : Nat
  body : Except String Nat
deriving Repr, DecidableEq

/-- The state of a `ThreadPool` object together with the shared states of the
futures it has handed out. -/
structure ThreadPool where
  tasks : List PTask
  stop : Bool
  runningWorkers : Nat
  futures : List (Nat × Option (Except String Nat))
  nextId : Nat
deriving Repr, DecidableEq

/-- The constructor `ThreadPool(size_t num_threads)`: `stop(false)`, an empty
queue, and `num_threads` worker threads started immediately. -/
def ThreadPool.init (num_threads : Nat) : ThreadPool :=
  { tasks := [], stop := false, runningWorkers := num_threads,
    futures := [], nextId := 0 }

/-- The private predicate `should_wake_up()`: `stop || !tasks.empty()`. -/
def ThreadPool.should_wake_up (p : ThreadPool) : Bool :=
  p.stop || !p.tasks.isEmpty

/-- Invoking one packaged task: `(*task_ptr)()` runs the bound callable and
stores its value, or the exception it threw, into the associated shared
state. Modelled as writing the task body's outcome into the future entries
keyed by the task's shared-state identity. -/
def execute_packaged_task (futs : List (Nat × Option (Except String Nat)))
    (t : PTask) : List (Nat × Option (Except String Nat)) :=
  futs.map (fun e => if e.1 = t.tid then (e.1, some t.body) else e)

/-- The observable result of one iteration of `worker_loop`'s `while (true)`
body: the thread blocks in `condition.wait`, or returns (thread exits), or
dequeues the front task and executes it outside the critical section. -/
inductive WorkerStep where
  | blocked
  | exited (p : ThreadPool)
  | ran (t : PTask) (p : ThreadPool)
deriving Repr, DecidableEq

/-- One iteration of `ThreadPool::worker_loop`: under the lock, wait until
`should_wake_up()`; if `stop && tasks.empty()` return (the thread exits,
modelled by one fewer running worker); otherwise take `tasks.front()`, pop
it, release the lock and execute the task. When the wake-up guard holds and
the exit guard does not, the queue is provably non-empty, so the final
pattern (an empty queue) is unreachable and is mapped to `blocked`. -/
def ThreadPool.worker_loop_iter (p : ThreadPool) : WorkerStep :=
  if !p.should_wake_up then .blocked
  else if p.stop && p.tasks.isEmpty then
    .exited { p with runningWorkers := p.runningWorkers - 1 }
  else
    match p.tasks with
    | t :: rest =>
        .ran t { p with tasks := rest,
                        futures := execute_packaged_task p.futures t }
    | [] => .blocked

/-- `ThreadPool::submit`: if `stop` is set (checked under the lock) throw
`std::runtime_error("Cannot submit task to stopped ThreadPool")`; otherwise
wrap the callable in a fresh packaged task, enqueue the bound invocation at
the tail, notify one worker, and return the associated future. On the throw
path the packaged task and future constructed before the check are locals
destroyed during unwinding, so the pool state and future store are
unchanged and the caller receives no handle. -/
def ThreadPool.submit (p : ThreadPool) (body : Except String Nat) :
    Except String (ThreadPool × Nat) :=
  if p.stop then .error "Cannot submit task to stopped ThreadPool"
  else
    .ok ({ p with
            tasks := p.tasks ++ [⟨p.nextId, body⟩],
            futures := p.futures ++ [(p.nextId, none)],
            nextId := p.nextId + 1 }, p.nextId)

/-- `ThreadPool::get_queue_size`: under the lock, return `tasks.size()`. -/
def ThreadPool.get_queue_size (p : ThreadPool) : Nat :=
  p.tasks.length

/-- The queue drain performed by the joined workers once `stop` is set: each
`worker_loop` iteration pops the front task and invokes it, until the queue
is empty and every thread returns. Aggregate effect on the future store. -/
def drainLoop (ts : List PTask) (futs : List (Nat × Option (Except String Nat))) :
    List (Nat × Option (Except String Nat)) :=
  match ts with
  | [] => futs
  | t :: rest => drainLoop rest (execute_packaged_task futs t)

/-- `ThreadPool::shutdown`: set `stop` under the lock, `notify_all`, then join
every worker thread. If no worker thread is still running (none were created,
or a previous `shutdown` already joined them all — a joined `std::thread` is
no longer joinable) the joins are no-ops and the queue is left as is.
Otherwise the woken workers drain the whole queue, invoking each task, and
then every thread exits and is joined. -/
def ThreadPool.shutdown (p : ThreadPool) : ThreadPool :=
  if p.runningWorkers = 0 then { p with stop := true }
  else { p with stop := true, tasks := [],
                futures := drainLoop p.tasks p.futures,
                runningWorkers := 0 }

/-- The destructor `~ThreadPool()`: calls `shutdown()`. -/
def ThreadPool.destruct (p : ThreadPool) : ThreadPool :=
  p.shutdown

/-- Submit a list of task bodies in order (as the demo drivers do in a loop),
propagating the first failure. -/
def ThreadPool.submitAll (p : ThreadPool) (bs : List (Except String Nat)) :
    Except String ThreadPool :=
  match bs with
  | [] => .ok p
  | b :: rest =>
    match p.submit b with
    | .error e => .error e
    | .ok (p', _) => p'.submitAll rest

/-- Run a single worker for at most `fuel` iterations of `worker_loop`,
returning the final pool state and the identities of the tasks it executed,
in execution order. The run stops early when the thread blocks or exits. -/
def ThreadPool.runWorker (p : ThreadPool) (fuel : Nat) : ThreadPool × List Nat :=
  match fuel with
  | 0 => (p, [])
  | fuel' + 1 =>
    match p.worker_loop_iter with
    | .ran t p' =>
        let r := p'.runWorker fuel'
        (r.1, t.tid :: r.2)
    | .exited p' => (p', [])
    | .blocked => (p, [])

/-- The tasks created by submitting the bodies `bs` when the next fresh
shared-state identity is `i`. -/
def taskSeq (i : Nat) : List (Except String Nat) → List PTask
  | [] => []
  | b :: rest => ⟨i, b⟩ :: taskSeq (i + 1) rest

/-- Every task created by `taskSeq i` has a shared-state identity at least `i`. -/
theorem taskSeq_le_tid (i : Nat) (bs : List (Except String Nat)) :
    ∀ t ∈ taskSeq i bs, i ≤ t.tid := by
  induction bs generalizing i with
  | nil => simp [taskSeq]
  | cons b rest ih =>
    intro t ht
    simp only [taskSeq, List.mem_cons] at ht
    rcases ht with h | h
    · simp [h]
    · exact Nat.le_of_succ_le (ih (i + 1) t h)

/-- The identities of the tasks created by `taskSeq i bs` are `i, i+1, …`. -/
theorem taskSeq_map_tid (i : Nat) (bs : List (Except String Nat)) :
    (taskSeq i bs).map PTask.tid = List.range' i bs.length := by
  induction bs generalizing i with
  | nil => simp [taskSeq]
  | cons b rest ih => simp [taskSeq, List.range'_succ, ih]

/-- `taskSeq` is compositional across appends. -/
theorem taskSeq_append (i : Nat) (bs cs : List (Except String Nat)) :
    taskSeq i (bs ++ cs) = taskSeq i bs ++ taskSeq (i + bs.length) cs := by
  induction bs generalizing i with
  | nil => simp [taskSeq]
  | cons b rest ih =>
    simp only [List.cons_append, taskSeq, ih, List.length_cons]
    have h : i + (rest.length + 1) = i + 1 + rest.length := by omega
    rw [h]
    simp [ih]

/-- Invoking a packaged task leaves every future entry with a different
shared-state identity unchanged. -/
theorem execute_packaged_task_untouched
    (futs : List (Nat × Option (Except String Nat))) (t : PTask)
    (h : ∀ e ∈ futs, e.1 ≠ t.tid) :
    execute_packaged_task futs t = futs := by
  induction futs with
  | nil => simp [execute_packaged_task]
  | cons a rest ih =>
    simp only [execute_packaged_task, List.map_cons]
    have ha : a.1 ≠ t.tid := h a (by simp)
    rw [if_neg ha]
    have := ih (fun e he => h e (by simp [he]))
    simp only [execute_packaged_task] at this
    rw [this]

/-- Draining leaves a leading future entry unchanged when no drained task
writes to it. -/
theorem drainLoop_cons_untouched (ts : List PTask)
    (a : Nat × Option (Except String Nat))
    (futs : List (Nat × Option (Except String Nat)))
    (h : ∀ t ∈ ts, a.1 ≠ t.tid) :
    drainLoop ts (a :: futs) = a :: drainLoop ts futs := by
  induction ts generalizing futs with
  | nil => simp [drainLoop]
  | cons t rest ih =>
    simp only [drainLoop, execute_packaged_task, List.map_cons]
    rw [if_neg (h t (by simp))]
    exact ih _ (fun u hu => h u (List.mem_cons_of_mem _ hu))

/-- Draining the tasks `taskSeq i bs` writes each task body's outcome into
exactly its own future entry. -/
theorem drainLoop_taskSeq (i : Nat) (bs : List (Except String Nat)) :
    drainLoop (taskSeq i bs)
        ((taskSeq i bs).map (fun t => (t.tid, (none : Option (Except String Nat))))) =
      (taskSeq i bs).map (fun t => (t.tid, some t.body)) := by
  induction bs generalizing i with
  | nil => simp [taskSeq, drainLoop]
  | cons b rest ih =>
    have hcons : ∀ (a : Nat × Option (Except String Nat))
        (futs : List (Nat × Option (Except String Nat))) (t : PTask),
        execute_packaged_task (a :: futs) t =
          (if a.1 = t.tid then (a.1, some t.body) else a) ::
            execute_packaged_task futs t :=
      fun _ _ _ => rfl
    have htail : execute_packaged_task
        ((taskSeq (i + 1) rest).map
          (fun t => (t.tid, (none : Option (Except String Nat))))) ⟨i, b⟩ =
        (taskSeq (i + 1) rest).map (fun t => (t.tid, none)) := by
      apply execute_packaged_task_untouched
      intro e he
      simp only [List.mem_map] at he
      obtain ⟨u, hu, rfl⟩ := he
      have := taskSeq_le_tid (i + 1) rest u hu
      simp only []
      omega
    simp only [taskSeq, List.map_cons, drainLoop, hcons, htail]
    rw [if_pos trivial]
    rw [drainLoop_cons_untouched _ _ _ (by
      intro u hu
      have := taskSeq_le_tid (i + 1) rest u hu
      simp only []
      omega)]
    rw [ih (i + 1)]

/-- On a non-empty queue, one `worker_loop` iteration dequeues exactly the
front task and executes it, leaving the tail of the queue. -/
theorem worker_loop_iter_cons (p : ThreadPool) (t : PTask) (rest : List PTask)
    (h : p.tasks = t :: rest) :
    p.worker_loop_iter =
      .ran t { p with tasks := rest,
                      futures := execute_packaged_task p.futures t } := by
  simp [ThreadPool.worker_loop_iter, ThreadPool.should_wake_up, h]

/-- A `worker_loop` iteration returns (the thread exits) exactly when `stop`
is set and the queue is empty. -/
theorem worker_loop_iter_exited_iff (p : ThreadPool) :
    (∃ p', p.worker_loop_iter = .exited p') ↔ (p.stop = true ∧ p.tasks = []) := by
  constructor
  · rintro ⟨p', hp'⟩
    by_cases hs : p.stop = true
    · rcases hq : p.tasks with _ | ⟨t, rest⟩
      · exact ⟨hs, rfl⟩
      · rw [worker_loop_iter_cons p t rest hq] at hp'
        exact absurd hp' (by simp)
    · simp only [Bool.not_eq_true] at hs
      rcases hq : p.tasks with _ | ⟨t, rest⟩
      · simp [ThreadPool.worker_loop_iter, ThreadPool.should_wake_up, hs, hq] at hp'
      · rw [worker_loop_iter_cons p t rest hq] at hp'
        exact absurd hp' (by simp)
  · rintro ⟨hs, hq⟩
    exact ⟨{ p with runningWorkers := p.runningWorkers - 1 },
      by simp [ThreadPool.worker_loop_iter, ThreadPool.should_wake_up, hs, hq]⟩

/-- A single worker executes the queued tasks in exactly queue order: with
`fuel` iterations it runs the first `fuel` queued tasks, front first. -/
theorem runWorker_order (fuel : Nat) (p : ThreadPool) :
    (p.runWorker fuel).2 = (p.tasks.take fuel).map PTask.tid := by
  induction fuel generalizing p with
  | zero => simp [ThreadPool.runWorker]
  | succ fuel' ih =>
    rcases hq : p.tasks with _ | ⟨t, rest⟩
    · by_cases hs : p.stop = true
      · have : p.worker_loop_iter = .exited { p with runningWorkers := p.runningWorkers - 1 } := by
          simp [ThreadPool.worker_loop_iter, ThreadPool.should_wake_up, hs, hq]
        simp [ThreadPool.runWorker, this, hq]
      · simp only [Bool.not_eq_true] at hs
        have : p.worker_loop_iter = .blocked := by
          simp [ThreadPool.worker_loop_iter, ThreadPool.should_wake_up, hs, hq]
        simp [ThreadPool.runWorker, this, hq]
    · have h := worker_loop_iter_cons p t rest hq
      simp [ThreadPool.runWorker, h, hq, ih]

/-- After `fuel` iterations of a single worker, the first `fuel` queued tasks
have left the queue. -/
theorem runWorker_tasks (fuel : Nat) (p : ThreadPool) :
    (p.runWorker fuel).1.tasks = p.tasks.drop fuel := by
  induction fuel generalizing p with
  | zero => simp [ThreadPool.runWorker]
  | succ fuel' ih =>
    rcases hq : p.tasks with _ | ⟨t, rest⟩
    · by_cases hs : p.stop = true
      · have : p.worker_loop_iter = .exited { p with runningWorkers := p.runningWorkers - 1 } := by
          simp [ThreadPool.worker_loop_iter, ThreadPool.should_wake_up, hs, hq]
        simp [ThreadPool.runWorker, this, hq]
      · simp only [Bool.not_eq_true] at hs
        have : p.worker_loop_iter = .blocked := by
          simp [ThreadPool.worker_loop_iter, ThreadPool.should_wake_up, hs, hq]
        simp [ThreadPool.runWorker, this, hq]
    · have h := worker_loop_iter_cons p t rest hq
      simp [ThreadPool.runWorker, h, hq, ih]

/-- Submitting a list of bodies to a pool that has not begun shutdown always
succeeds and appends the corresponding tasks and fresh unwritten futures, in
submission order, leaving the flag, the workers and the old entries alone. -/
theorem submitAll_ok (bs : List (Except String Nat)) (p : ThreadPool)
    (h : p.stop = false) :
    p.submitAll bs = .ok
      { p with
        tasks := p.tasks ++ taskSeq p.nextId bs,
        futures := p.futures ++
          (taskSeq p.nextId bs).map (fun t => (t.tid, none)),
        nextId := p.nextId + bs.length } := by
  induction bs generalizing p with
  | nil =>
    cases p
    simp_all [ThreadPool.submitAll, taskSeq]
  | cons b rest ih =>
    simp only [ThreadPool.submitAll, ThreadPool.submit, h, Bool.false_eq_true,
      if_false, taskSeq, List.length_cons]
    rw [ih _ (by simp [h])]
    simp only [Except.ok.injEq, ThreadPool.mk.injEq]
    refine ⟨by simp, trivial, trivial, by simp, by omega⟩

/-- Reading the future slot bound to a given packaged-task shared state:
`none` when no such future exists, otherwise the slot's current content. -/
def lookupFut (tid : Nat) :
    List (Nat × Option (Except String Nat)) → Option (Option (Except String Nat))
  | [] => none
  | e :: rest => if e.1 = tid then some e.2 else lookupFut tid rest

/-- Invoking a packaged task writes the body's outcome into the future slot
bound to the task's own shared-state identity. -/
theorem lookupFut_execute_self (futs : List (Nat × Option (Except String Nat)))
    (t : PTask) (v : Option (Except String Nat))
    (h : lookupFut t.tid futs = some v) :
    lookupFut t.tid (execute_packaged_task futs t) = some (some t.body) := by
  induction futs with
  | nil => simp [lookupFut] at h
  | cons a rest ih =>
    simp only [execute_packaged_task, List.map_cons] at h ⊢
    by_cases ha : a.1 = t.tid
    · rw [if_pos ha]
      simp [lookupFut, ha]
    · rw [if_neg ha]
      simp only [lookupFut, if_neg ha] at h ⊢
      have := ih h
      simpa [execute_packaged_task] using this

/-- Invoking a packaged task leaves the future slot of every other
shared-state identity unchanged. -/
theorem lookupFut_execute_other (futs : List (Nat × Option (Except String Nat)))
    (t : PTask) (tid' : Nat) (h : tid' ≠ t.tid) :
    lookupFut tid' (execute_packaged_task futs t) = lookupFut tid' futs := by
  induction futs with
  | nil => simp [lookupFut, execute_packaged_task]
  | cons a rest ih =>
    simp only [execute_packaged_task, List.map_cons]
    by_cases ha : a.1 = t.tid
    · rw [if_pos ha]
      have hne : ¬ ((a.1, some t.body) : Nat × Option (Except String Nat)).1 = tid' := by
        simp only []
        omega
      have hne2 : ¬ a.1 = tid' := by omega
      simp only [lookupFut, if_neg hne, if_neg hne2]
      simpa [execute_packaged_task] using ih
    · rw [if_neg ha]
      by_cases hc : a.1 = tid'
      · simp [lookupFut, hc]
      · simp only [lookupFut, if_neg hc]
        simpa [execute_packaged_task] using ih

/-- A primitive event of the pool's synchronization protocol, in program
order as written in the source. `condition.wait(lock)` is transcribed as the
release/re-acquire pair it performs around the sleep. -/
inductive LockEv where
  | acquire
  | release
  | queueOp
  | stopOp
  | runBody
  | signal
deriving Repr, DecidableEq

/-- Check a trace against the locking discipline, threading whether the one
queue mutex is held: acquiring requires it free, releasing requires it held,
every queue or stop-flag access requires it held, and executing a task body
or signalling the condition variable requires it released. Returns the final
held state, or `none` on the first violation. -/
def checkEvs (held : Bool) : List LockEv → Option Bool
  | [] => some held
  | e :: rest =>
    match e with
    | .acquire => if held then none else checkEvs true rest
    | .release => if held then checkEvs false rest else none
    | .queueOp => if held then checkEvs held rest else none
    | .stopOp => if held then checkEvs held rest else none
    | .runBody => if held then none else checkEvs held rest
    | .signal => if held then none else checkEvs held rest

/-- The body of `condition.wait(lock)`: release the mutex, sleep, re-acquire
on wake-up. -/
def waitEvs : List LockEv := [.release, .acquire]

/-- The reads performed by the predicate `should_wake_up()`:
`stop || !tasks.empty()`. -/
def shouldWakeUpEvs : List LockEv := [.stopOp, .queueOp]

/-- The synchronization events of one iteration of `worker_loop` that wakes
after `waits` passes through the `while (!should_wake_up())` loop and
dequeues a task: acquire the mutex, check the predicate, wait and re-check
`waits` times, re-read `stop`/`tasks.empty()` for the exit test, then
`tasks.front()` and `tasks.pop()`, release at the end of the block, and only
then invoke `task()`. -/
def workerIterEvs (waits : Nat) : List LockEv :=
  [.acquire] ++ shouldWakeUpEvs ++
    (List.replicate waits (waitEvs ++ shouldWakeUpEvs)).flatten ++
    [.stopOp, .queueOp] ++ [.queueOp, .queueOp] ++ [.release] ++ [.runBody]

/-- The synchronization events of `submit`'s enqueue path: acquire the mutex,
read `stop`, `tasks.emplace(...)`, release at the end of the block, then
`condition.notify_one()`. -/
def submitEvs : List LockEv := [.acquire, .stopOp, .queueOp, .release, .signal]

/-- The synchronization events of `get_queue_size`: acquire the mutex, read
`tasks.size()`, release. -/
def getQueueSizeEvs : List LockEv := [.acquire, .queueOp, .release]

/-- `checkEvs` distributes over concatenation of traces. -/
theorem checkEvs_append (xs ys : List LockEv) (held : Bool) :
    checkEvs held (xs ++ ys) = (checkEvs held xs).bind (fun h => checkEvs h ys) := by
  induction xs generalizing held with
  | nil => simp [checkEvs]
  | cons e rest ih =>
    cases e <;> simp only [List.cons_append, checkEvs] <;>
      by_cases hh : held = true <;> simp [hh, ih]

/-- Any number of passes through the wait/re-check loop keeps the discipline
intact and ends with the mutex held. -/
theorem checkEvs_waitLoop (waits : Nat) :
    checkEvs true (List.replicate waits (waitEvs ++ shouldWakeUpEvs)).flatten = some true := by
  induction waits with
  | zero => simp [checkEvs]
  | succ n ih =>
    rw [List.replicate_succ, List.flatten_cons, checkEvs_append]
    have h1 : checkEvs true (waitEvs ++ shouldWakeUpEvs) = some true := by
      simp [waitEvs, shouldWakeUpEvs, checkEvs_append, checkEvs]
    rw [h1]
    simpa using ih

/-- The number of tasks created for a list of bodies equals its length. -/
theorem taskSeq_length (i : Nat) (bs : List (Except String Nat)) :
    (taskSeq i bs).length = bs.length := by
  have h := taskSeq_map_tid i bs
  have := congrArg List.length h
  simpa using this

/-- C1: once shutdown has begun (`stop` is true), every `submit` call fails
synchronously with the `PoolClosed` error `"Cannot submit task to stopped
ThreadPool"`; it never returns a pool state and result handle, so no task is
appended and no future reaches the caller. -/
theorem C1_submit_after_shutdown_fails (p : ThreadPool) (b : Except String Nat)
    (h : p.stop = true) :
    p.submit b = Except.error "Cannot submit task to stopped ThreadPool" ∧
    (∀ p' hdl, p.submit b ≠ Except.ok (p', hdl)) := by
  refine ⟨by simp [ThreadPool.submit, h], ?_⟩
  intro p' hdl hc
  simp [ThreadPool.submit, h] at hc

/-- C1 witness: submitting to a freshly shut-down one-worker pool fails with
the `PoolClosed` error. -/
theorem C1_submit_after_shutdown_fails_witness :
    ((ThreadPool.init 1).shutdown).submit (Except.ok 0) =
      Except.error "Cannot submit task to stopped ThreadPool" :=
  (C1_submit_after_shutdown_fails ((ThreadPool.init 1).shutdown) (Except.ok 0)
    (by decide)).1

/-- C2: dequeues happen in strict FIFO order: every dequeue removes exactly
the front (oldest) task, every submit appends at the tail, a single worker
executes the queued tasks in exactly queue order, and in particular after
submitting bodies `A` then `B` to an empty pool a single worker runs `A`'s
task before `B`'s. -/
theorem C2_fifo_dequeue_order (p : ThreadPool) (hstop : p.stop = false)
    (hempty : p.tasks = []) (A B : Except String Nat) :
    (∀ (q : ThreadPool) (t : PTask) (rest : List PTask), q.tasks = t :: rest →
        q.worker_loop_iter = WorkerStep.ran t
          { q with tasks := rest, futures := execute_packaged_task q.futures t }) ∧
    (∀ (q : ThreadPool) (b : Except String Nat), q.stop = false →
        (q.submit b).map (fun r => r.1.tasks) =
          Except.ok (q.tasks ++ [⟨q.nextId, b⟩])) ∧
    (∀ (q : ThreadPool) (fuel : Nat),
        (q.runWorker fuel).2 = (q.tasks.take fuel).map PTask.tid) ∧
    (p.submitAll [A, B]).map (fun q => (q.runWorker 2).2) =
      Except.ok [p.nextId, p.nextId + 1] := by
  refine ⟨worker_loop_iter_cons, ?_, ?_, ?_⟩
  · intro q b hq
    simp [ThreadPool.submit, hq, Except.map]
  · intro q fuel
    exact runWorker_order fuel q
  · rw [submitAll_ok [A, B] p hstop]
    simp only [Except.map, hempty, List.nil_append]
    rw [runWorker_order]
    simp [taskSeq]

/-- C2 witness: on a fresh one-worker pool, submitting two bodies and then
running the single worker executes the first submission first. -/
theorem C2_fifo_dequeue_order_witness :
    ((ThreadPool.init 1).submitAll [Except.ok 1, Except.ok 2]).map
        (fun q => (q.runWorker 2).2) = Except.ok [0, 1] :=
  (C2_fifo_dequeue_order (ThreadPool.init 1) rfl rfl (Except.ok 1)
    (Except.ok 2)).2.2.2

/-- C3: a `worker_loop` iteration returns (terminating the worker) exactly
when `stop` is true and the queue is empty; whenever the queue is non-empty
the woken worker dequeues and executes its front task instead of exiting;
and once `stop` is set, a worker given enough iterations executes every
queued task, in order, leaving the queue empty — the backlog is drained,
never abandoned. -/
theorem C3_worker_exits_only_when_drained (p : ThreadPool) :
    ((∃ p', p.worker_loop_iter = WorkerStep.exited p') ↔
      (p.stop = true ∧ p.tasks = [])) ∧
    (∀ (t : PTask) (rest : List PTask), p.tasks = t :: rest →
      p.worker_loop_iter = WorkerStep.ran t
        { p with tasks := rest, futures := execute_packaged_task p.futures t }) ∧
    (p.stop = true → ∀ fuel, p.tasks.length ≤ fuel →
      (p.runWorker fuel).2 = p.tasks.map PTask.tid ∧
      (p.runWorker fuel).1.tasks = []) := by
  refine ⟨worker_loop_iter_exited_iff p, worker_loop_iter_cons p, ?_⟩
  intro _ fuel hfuel
  constructor
  · rw [runWorker_order, List.take_of_length_le hfuel]
  · rw [runWorker_tasks]
    exact List.drop_eq_nil_of_le hfuel

/-- C3 witness: a stopped single-worker pool with one queued task executes
that task and drains its queue within one iteration. -/
theorem C3_worker_exits_only_when_drained_witness :
    ((⟨[⟨0, Except.ok 5⟩], true, 1, [(0, none)], 1⟩ : ThreadPool).runWorker 1).2 =
      (⟨[⟨0, Except.ok 5⟩], true, 1, [(0, none)], 1⟩ : ThreadPool).tasks.map
        PTask.tid ∧
    ((⟨[⟨0, Except.ok 5⟩], true, 1, [(0, none)], 1⟩ : ThreadPool).runWorker 1).1.tasks
      = [] :=
  (C3_worker_exits_only_when_drained
      (⟨[⟨0, Except.ok 5⟩], true, 1, [(0, none)], 1⟩ : ThreadPool)).2.2
    rfl 1 (by decide)

/-- C4: when the front task's body raises a failure, one `worker_loop`
iteration still dequeues and runs it (the loop is not killed: the step is a
`ran`, never an exception escape), the failure outcome is written into that
task's own future, the sibling tasks stay queued in order, the flag and the
worker set are untouched, and every other task's future is unchanged. -/
theorem C4_failure_captured_in_future (p : ThreadPool) (t : PTask)
    (rest : List PTask) (m : String) (hq : p.tasks = t :: rest)
    (hb : t.body = Except.error m)
    (hf : lookupFut t.tid p.futures = some none) :
    p.worker_loop_iter = WorkerStep.ran t
      { p with tasks := rest, futures := execute_packaged_task p.futures t } ∧
    lookupFut t.tid (execute_packaged_task p.futures t) =
      some (some (Except.error m)) ∧
    (∀ tid', tid' ≠ t.tid →
      lookupFut tid' (execute_packaged_task p.futures t) =
        lookupFut tid' p.futures) := by
  refine ⟨worker_loop_iter_cons p t rest hq, ?_, ?_⟩
  · have := lookupFut_execute_self p.futures t none hf
    rwa [hb] at this
  · intro tid' hne
    exact lookupFut_execute_other p.futures t tid' hne

/-- C4 witness: a queued task whose body raises `"boom"` gets that failure
written into its future by the worker iteration. -/
theorem C4_failure_captured_in_future_witness :
    lookupFut 0 (execute_packaged_task [(0, none)] ⟨0, Except.error "boom"⟩) =
      some (some (Except.error "boom")) :=
  (C4_failure_captured_in_future
      (⟨[⟨0, Except.error "boom"⟩], false, 2, [(0, none)], 1⟩ : ThreadPool)
      ⟨0, Except.error "boom"⟩ [] "boom" rfl rfl rfl).2.1

/-- C5: `shutdown` is idempotent — running it on an already shut-down pool
reproduces exactly the same pool state — and after any `shutdown` call
(first or second) every worker thread has terminated and been joined. -/
theorem C5_shutdown_idempotent (p : ThreadPool) :
    p.shutdown.shutdown = p.shutdown ∧
    p.shutdown.runningWorkers = 0 ∧
    p.shutdown.shutdown.runningWorkers = 0 ∧
    p.shutdown.stop = true := by
  have h0 : p.shutdown.runningWorkers = 0 := by
    simp only [ThreadPool.shutdown]
    split <;> simp_all
  have hs : p.shutdown.stop = true := by
    simp only [ThreadPool.shutdown]
    split <;> rfl
  have hfix : ∀ q : ThreadPool, q.runningWorkers = 0 → q.stop = true →
      q.shutdown = q := by
    intro q hq hqs
    cases q
    simp_all [ThreadPool.shutdown]
  have hidem := hfix p.shutdown h0 hs
  exact ⟨hidem, h0, by rw [hidem]; exact h0, hs⟩

/-- C6: `get_queue_size` counts exactly the tasks enqueued and not yet
dequeued: after submitting `K` bodies to a fresh pool it returns `K`, each
dequeue (which hands the running task to the worker, no longer counting it)
decreases it by exactly one, and once a worker has dequeued everything it
returns `0`. -/
theorem C6_queue_size_exact (p : ThreadPool) (hstop : p.stop = false)
    (hempty : p.tasks = []) (bs : List (Except String Nat)) :
    (p.submitAll bs).map ThreadPool.get_queue_size = Except.ok bs.length ∧
    (∀ (q : ThreadPool) (t : PTask) (rest : List PTask), q.tasks = t :: rest →
        ThreadPool.get_queue_size
            { q with tasks := rest, futures := execute_packaged_task q.futures t }
            + 1 = q.get_queue_size ∧
        q.worker_loop_iter = WorkerStep.ran t
          { q with tasks := rest, futures := execute_packaged_task q.futures t }) ∧
    (∀ (q : ThreadPool) (fuel : Nat), q.tasks.length ≤ fuel →
        ((q.runWorker fuel).1).get_queue_size = 0) := by
  refine ⟨?_, ?_, ?_⟩
  · rw [submitAll_ok bs p hstop]
    simp [Except.map, ThreadPool.get_queue_size, hempty, taskSeq_length]
  · intro q t rest hq
    exact ⟨by simp [ThreadPool.get_queue_size, hq], worker_loop_iter_cons q t rest hq⟩
  · intro q fuel hfuel
    simp only [ThreadPool.get_queue_size]
    rw [runWorker_tasks]
    simp [List.drop_eq_nil_of_le hfuel]

/-- C6 witness: three submissions to a fresh paused pool (no workers) leave a
pending count of exactly three. -/
theorem C6_queue_size_exact_witness :
    ((ThreadPool.init 0).submitAll [Except.ok 1, Except.ok 2, Except.ok 3]).map
        ThreadPool.get_queue_size = Except.ok 3 :=
  (C6_queue_size_exact (ThreadPool.init 0) rfl rfl
    [Except.ok 1, Except.ok 2, Except.ok 3]).1

/-- A `worker_loop` iteration that dequeues and runs a task leaves the stop
flag as it was. -/
theorem worker_iter_ran_stop (p : ThreadPool) (t : PTask) (p' : ThreadPool)
    (h : p.worker_loop_iter = WorkerStep.ran t p') : p'.stop = p.stop := by
  rcases hq : p.tasks with _ | ⟨u, rest⟩
  · by_cases hs : p.stop = true <;>
      simp [ThreadPool.worker_loop_iter, ThreadPool.should_wake_up, hq, hs] at h
  · rw [worker_loop_iter_cons p u rest hq] at h
    simp only [WorkerStep.ran.injEq] at h
    obtain ⟨h1, h2⟩ := h
    subst h2
    rfl

/-- A `worker_loop` iteration on which the thread exits leaves the stop flag
as it was (it is already true at that point). -/
theorem worker_iter_exited_stop (p : ThreadPool) (p' : ThreadPool)
    (h : p.worker_loop_iter = WorkerStep.exited p') : p'.stop = p.stop := by
  rcases hq : p.tasks with _ | ⟨u, rest⟩
  · by_cases hs : p.stop = true
    · have hx : p.worker_loop_iter =
          WorkerStep.exited { p with runningWorkers := p.runningWorkers - 1 } := by
        simp [ThreadPool.worker_loop_iter, ThreadPool.should_wake_up, hq, hs]
      rw [hx] at h
      simp only [WorkerStep.exited.injEq] at h
      subst h
      rfl
    · simp [ThreadPool.worker_loop_iter, ThreadPool.should_wake_up, hq, hs] at h
  · rw [worker_loop_iter_cons p u rest hq] at h
    exact absurd h (by simp)

/-- C7: the stop flag is monotone: false at construction, set by `shutdown`
and the destructor, preserved by every successful or failed `submit` and
every worker-loop step, and never reset — so a shut-down pool stays
shut down and rejects every later submission. -/
theorem C7_stop_flag_monotone (num_threads : Nat) (p : ThreadPool)
    (b : Except String Nat) :
    (ThreadPool.init num_threads).stop = false ∧
    p.shutdown.stop = true ∧
    p.destruct.stop = true ∧
    p.shutdown.shutdown.stop = true ∧
    (∀ p' hdl, p.submit b = Except.ok (p', hdl) → p'.stop = p.stop) ∧
    (p.stop = true →
      p.submit b = Except.error "Cannot submit task to stopped ThreadPool") ∧
    (∀ t p', p.worker_loop_iter = WorkerStep.ran t p' → p'.stop = p.stop) ∧
    (∀ p', p.worker_loop_iter = WorkerStep.exited p' → p'.stop = p.stop) := by
  have hs : ∀ q : ThreadPool, q.shutdown.stop = true := by
    intro q
    simp only [ThreadPool.shutdown]
    split <;> rfl
  refine ⟨rfl, hs p, hs p, hs p.shutdown, ?_, ?_, worker_iter_ran_stop p,
    worker_iter_exited_stop p⟩
  · intro p' hdl h
    by_cases hsp : p.stop = true
    · simp [ThreadPool.submit, hsp] at h
    · simp only [ThreadPool.submit, hsp, if_false, Bool.not_eq_true,
        Except.ok.injEq, Prod.mk.injEq] at h
      obtain ⟨h1, h2⟩ := h
      simp only [Bool.not_eq_true] at hsp
      simp [hsp]
  · intro hsp
    simp [ThreadPool.submit, hsp]

/-- C7 witness: a pool that has been shut down rejects a later submission. -/
theorem C7_stop_flag_monotone_witness :
    ((ThreadPool.init 1).shutdown).submit (Except.ok 1) =
      Except.error "Cannot submit task to stopped ThreadPool" :=
  (C7_stop_flag_monotone 1 ((ThreadPool.init 1).shutdown)
    (Except.ok 1)).2.2.2.2.2.1 (by decide)

/-- C8: for a pool with at least one worker and any finite list of submitted
bodies, every submission succeeds and creates exactly one future, initially
unwritten; after `shutdown` (which drains the queue to empty) every one of
those futures holds its own task's outcome; the futures are keyed by the
pairwise-distinct identities `0, 1, …`, one entry per task, so each result
is written exactly once. -/
theorem C8_future_written_exactly_once (n : Nat) (bs : List (Except String Nat))
    (hn : 1 ≤ n) :
    (ThreadPool.init n).submitAll bs =
      Except.ok { tasks := taskSeq 0 bs, stop := false, runningWorkers := n,
                  futures := (taskSeq 0 bs).map (fun t => (t.tid, none)),
                  nextId := bs.length } ∧
    ((ThreadPool.init n).submitAll bs).map (fun p => p.shutdown.futures) =
      Except.ok ((taskSeq 0 bs).map (fun t => (t.tid, some t.body))) ∧
    ((ThreadPool.init n).submitAll bs).map (fun p => p.shutdown.tasks) =
      Except.ok ([] : List PTask) ∧
    (taskSeq 0 bs).map PTask.tid = List.range' 0 bs.length ∧
    ((taskSeq 0 bs).map PTask.tid).Nodup := by
  have hrec : (ThreadPool.init n).submitAll bs =
      Except.ok { tasks := taskSeq 0 bs, stop := false, runningWorkers := n,
                  futures := (taskSeq 0 bs).map (fun t => (t.tid, none)),
                  nextId := bs.length } := by
    simpa [ThreadPool.init] using submitAll_ok bs (ThreadPool.init n) rfl
  have hnz : ¬ (n = 0) := by omega
  have hshut : ThreadPool.shutdown
        { tasks := taskSeq 0 bs, stop := false, runningWorkers := n,
          futures := (taskSeq 0 bs).map (fun t => (t.tid, none)),
          nextId := bs.length } =
      { tasks := [], stop := true, runningWorkers := 0,
        futures := (taskSeq 0 bs).map (fun t => (t.tid, some t.body)),
        nextId := bs.length } := by
    simp [ThreadPool.shutdown, hnz, drainLoop_taskSeq]
  refine ⟨hrec, ?_, ?_, taskSeq_map_tid 0 bs, ?_⟩
  · rw [hrec]
    simp [Except.map, hshut]
  · rw [hrec]
    simp [Except.map, hshut]
  · rw [taskSeq_map_tid 0 bs]
    exact List.nodup_range' _ _

/-- C8 witness: two concrete submissions to a one-worker pool, one of which
fails with `"boom"`, get both futures written with their own outcomes by
shutdown. -/
theorem C8_future_written_exactly_once_witness :
    ((ThreadPool.init 1).submitAll [Except.ok 7, Except.error "boom"]).map
        (fun p => p.shutdown.futures) =
      Except.ok ((taskSeq 0 [Except.ok 7, Except.error "boom"]).map
        (fun t => (t.tid, some t.body))) :=
  (C8_future_written_exactly_once 1 [Except.ok 7, Except.error "boom"]
    (by decide)).2.1

/-- C9: the enqueue path of `submit`, the dequeue path of `worker_loop`
(through any number of condition-variable waits) and `get_queue_size` all
follow the discipline of the single queue mutex — every access to the queue
or the stop flag happens with the mutex held — and the dequeued task's body
is invoked only after the mutex has been released, with the trace containing
that body invocation. -/
theorem C9_single_lock_discipline (waits : Nat) :
    checkEvs false submitEvs = some false ∧
    checkEvs false getQueueSizeEvs = some false ∧
    checkEvs false (workerIterEvs waits) = some false ∧
    LockEv.runBody ∈ workerIterEvs waits := by
  refine ⟨rfl, rfl, ?_, by simp [workerIterEvs]⟩
  have hloop := checkEvs_waitLoop waits
  simp only [waitEvs, shouldWakeUpEvs, List.cons_append, List.nil_append] at hloop
  simp [workerIterEvs, checkEvs_append, hloop, waitEvs, shouldWakeUpEvs, checkEvs]

/-- C10: the constructor accepts any worker count, zero included, and starts
exactly that many workers with an empty queue and a clear stop flag; on a
zero-worker pool `submit` still accepts and enqueues the task, and
`shutdown` returns normally with the queued task still in the queue and its
future still unwritten — the task is never executed. -/
theorem C10_constructor_accepts_zero_workers (n : Nat) (b : Except String Nat) :
    ThreadPool.init n =
      { tasks := [], stop := false, runningWorkers := n,
        futures := [], nextId := 0 } ∧
    (ThreadPool.init 0).submit b =
      Except.ok ({ tasks := [⟨0, b⟩], stop := false, runningWorkers := 0,
                   futures := [(0, none)], nextId := 1 }, 0) ∧
    ((ThreadPool.init 0).submit b).map (fun r => r.1.shutdown) =
      Except.ok { tasks := [⟨0, b⟩], stop := true, runningWorkers := 0,
                  futures := [(0, none)], nextId := 1 } := by
  refine ⟨rfl, ?_, ?_⟩
  · simp [ThreadPool.init, ThreadPool.submit]
  · simp [ThreadPool.init, ThreadPool.submit, ThreadPool.shutdown, Except.map]
